import Mathlib

/-
Shallow embedding of src/STDev_Chart.py.

Conventions of the embedding:
* A pandas DataFrame of statcast rows is a list of rows; the five columns
  the program uses are modelled explicitly, each nullable column as an
  Option (a pandas NaN/missing value is `none`).
* Real-valued measurements are rationals.  The pandas `std` columns hold
  sqrt of the sample variance; since sqrt is injective and monotone on
  nonnegative reals and sqrt 0 = 0, the pipeline is modelled at the level
  of the squared std (the sample variance): a field named `..._stdSq`
  holds the square of the column `..._std` of the Python frame, and
  `fillna(0)` on the std column corresponds exactly to filling the
  variance with 0.
* pandas groupby sorts the group keys; we keep them in dedup order
  instead.  Every claim below is about the set of groups and the per-group
  values, never about row order of the grouped frames.
* The fallible row access `.iloc[0]` is modelled with Option.
-/

/-- A raw statcast row as fetched (only the five columns the program uses);
each column may be missing. -/
structure RawRow where
  player_name : Option String
  pitch_name : Option String
  release_pos_x : Option ℚ
  release_pos_y : Option ℚ
  release_pos_z : Option ℚ
  deriving Repr, DecidableEq

/-- A row surviving `dropna()`: all five columns present. -/
structure PitchRow where
  player_name : String
  pitch_name : String
  release_pos_x : ℚ
  release_pos_y : ℚ
  release_pos_z : ℚ
  deriving Repr, DecidableEq

/-- Line 109: `data[[...five columns...]].dropna()` — keep exactly the rows
where none of the five columns is missing. -/
def dropna (rows : List RawRow) : List PitchRow :=
  rows.filterMap fun r =>
    match r.player_name, r.pitch_name, r.release_pos_x, r.release_pos_y, r.release_pos_z with
    | some pl, some pi, some x, some y, some z => some ⟨pl, pi, x, y, z⟩
    | _, _, _, _, _ => none

/-- pandas `mean` of a column restricted to a group (groups are nonempty in
every use below; on [] this yields 0/0 = 0 in ℚ). -/
def mean (l : List ℚ) : ℚ :=
  l.sum / (l.length : ℚ)

/-- pandas `std` (sample standard deviation, ddof = 1), represented by its
square.  `none` models the NaN that pandas produces on a group with at most
one observation. -/
def sampleVar (l : List ℚ) : Option ℚ :=
  if l.length ≤ 1 then none
  else some ((l.map fun x => (x - mean l) ^ 2).sum / ((l.length : ℚ) - 1))

/-- Lines 123 and 138: `fillna(0)` on a possibly-NaN cell. -/
def fillZero (o : Option ℚ) : ℚ :=
  o.getD 0

/-- The distinct (player_name, pitch_name) keys of the groupby on line 112. -/
def pitchKeys (rows : List PitchRow) : List (String × String) :=
  (rows.map fun r => (r.player_name, r.pitch_name)).dedup

/-- The distinct player_name keys of the groupby on line 126. -/
def playerKeys (rows : List PitchRow) : List String :=
  (rows.map fun r => r.player_name).dedup

/-- The column `coord` of the rows of the (player, pitch) group `(pl, pi)`. -/
def pitchGroupValues (rows : List PitchRow) (pl pi : String) (coord : PitchRow → ℚ) : List ℚ :=
  (rows.filter fun r => r.player_name == pl && r.pitch_name == pi).map coord

/-- The column `coord` of the rows of the player group `pl`. -/
def playerGroupValues (rows : List PitchRow) (pl : String) (coord : PitchRow → ℚ) : List ℚ :=
  (rows.filter fun r => r.player_name == pl).map coord

/-- One row of `pitch_grouped` after the column flattening of lines 119-120;
the `_stdSq` fields hold the squares of the `_std` columns. -/
structure PitchGroupRow where
  player_name : String
  pitch_name : String
  release_pos_x_mean : ℚ
  release_pos_x_stdSq : ℚ
  release_pos_y_mean : ℚ
  release_pos_y_stdSq : ℚ
  release_pos_z_mean : ℚ
  release_pos_z_stdSq : ℚ
  deriving Repr, DecidableEq

/-- One row of `player_grouped` after the column flattening of lines 133-135. -/
structure PlayerGroupRow where
  player_name : String
  release_pos_x_mean_all : ℚ
  release_pos_x_stdSq_all : ℚ
  release_pos_y_mean_all : ℚ
  release_pos_y_stdSq_all : ℚ
  release_pos_z_mean_all : ℚ
  release_pos_z_stdSq_all : ℚ
  deriving Repr, DecidableEq

/-- Lines 112-123: group `pitch_data` by (player_name, pitch_name), aggregate
mean and std of the three coordinates, flatten the columns, `fillna(0)`. -/
def pitch_grouped (rows : List PitchRow) : List PitchGroupRow :=
  (pitchKeys rows).map fun k =>
    { player_name := k.1
      pitch_name := k.2
      release_pos_x_mean := mean (pitchGroupValues rows k.1 k.2 PitchRow.release_pos_x)
      release_pos_x_stdSq := fillZero (sampleVar (pitchGroupValues rows k.1 k.2 PitchRow.release_pos_x))
      release_pos_y_mean := mean (pitchGroupValues rows k.1 k.2 PitchRow.release_pos_y)
      release_pos_y_stdSq := fillZero (sampleVar (pitchGroupValues rows k.1 k.2 PitchRow.release_pos_y))
      release_pos_z_mean := mean (pitchGroupValues rows k.1 k.2 PitchRow.release_pos_z)
      release_pos_z_stdSq := fillZero (sampleVar (pitchGroupValues rows k.1 k.2 PitchRow.release_pos_z)) }

/-- Lines 126-138: group `pitch_data` by player_name alone, aggregate mean and
std of the three coordinates, flatten the columns, `fillna(0)`. -/
def player_grouped (rows : List PitchRow) : List PlayerGroupRow :=
  (playerKeys rows).map fun p =>
    { player_name := p
      release_pos_x_mean_all := mean (playerGroupValues rows p PitchRow.release_pos_x)
      release_pos_x_stdSq_all := fillZero (sampleVar (playerGroupValues rows p PitchRow.release_pos_x))
      release_pos_y_mean_all := mean (playerGroupValues rows p PitchRow.release_pos_y)
      release_pos_y_stdSq_all := fillZero (sampleVar (playerGroupValues rows p PitchRow.release_pos_y))
      release_pos_z_mean_all := mean (playerGroupValues rows p PitchRow.release_pos_z)
      release_pos_z_stdSq_all := fillZero (sampleVar (playerGroupValues rows p PitchRow.release_pos_z)) }

/-- Reference definition of the mean of a list of values (stated with an
inverse factor rather than a division, to be compared with `mean`). -/
def refMean (l : List ℚ) : ℚ :=
  ((l.length : ℚ))⁻¹ * l.sum

/-- Reference definition of the sample variance (the square of the sample
standard deviation): defined only for at least two observations, as the
inverse factor 1/(n-1) times the sum of squared deviations from the mean. -/
def refSampleVar (l : List ℚ) : Option ℚ :=
  if 2 ≤ l.length then
    some (((l.length : ℚ) - 1)⁻¹ * (l.map fun x => (x - refMean l) ^ 2).sum)
  else none

/-- The `pitch_grouped` row that the reference definitions prescribe for the
group keyed by `k`. -/
def refPitchRow (rows : List PitchRow) (k : String × String) : PitchGroupRow :=
  { player_name := k.1
    pitch_name := k.2
    release_pos_x_mean := refMean (pitchGroupValues rows k.1 k.2 PitchRow.release_pos_x)
    release_pos_x_stdSq := fillZero (refSampleVar (pitchGroupValues rows k.1 k.2 PitchRow.release_pos_x))
    release_pos_y_mean := refMean (pitchGroupValues rows k.1 k.2 PitchRow.release_pos_y)
    release_pos_y_stdSq := fillZero (refSampleVar (pitchGroupValues rows k.1 k.2 PitchRow.release_pos_y))
    release_pos_z_mean := refMean (pitchGroupValues rows k.1 k.2 PitchRow.release_pos_z)
    release_pos_z_stdSq := fillZero (refSampleVar (pitchGroupValues rows k.1 k.2 PitchRow.release_pos_z)) }

/-- The `player_grouped` row that the reference definitions prescribe for the
group keyed by player `p`. -/
def refPlayerRow (rows : List PitchRow) (p : String) : PlayerGroupRow :=
  { player_name := p
    release_pos_x_mean_all := refMean (playerGroupValues rows p PitchRow.release_pos_x)
    release_pos_x_stdSq_all := fillZero (refSampleVar (playerGroupValues rows p PitchRow.release_pos_x))
    release_pos_y_mean_all := refMean (playerGroupValues rows p PitchRow.release_pos_y)
    release_pos_y_stdSq_all := fillZero (refSampleVar (playerGroupValues rows p PitchRow.release_pos_y))
    release_pos_z_mean_all := refMean (playerGroupValues rows p PitchRow.release_pos_z)
    release_pos_z_stdSq_all := fillZero (refSampleVar (playerGroupValues rows p PitchRow.release_pos_z)) }

/-- Lines 141-153: the color dictionary. -/
def color_map : List (String × String) :=
  [("4-Seam Fastball", "red"), ("2-Seam Fastball", "red"), ("Sinker", "purple"),
   ("Cutter", "orange"), ("Slider", "yellow"), ("Sweeper", "yellow"),
   ("Curveball", "blue"), ("Knuckle Curve", "blue"), ("Changeup", "green"),
   ("Splitter", "pink"), ("Knuckleball", "black")]

/-- Line 51: `color_map.get(pitch_name, 'gray')`. -/
def lookupColor (cmap : List (String × String)) (pitch : String) : String :=
  ((cmap.find? fun kv => kv.1 == pitch).map fun kv => kv.2).getD "gray"

/-- One plotly trace added by `plot_release_points`.  An error bar is recorded
by the mean and squared std of the x coordinate (the rendered x endpoints of
lines 65 are that mean minus/plus the square root of the squared std). -/
inductive Trace where
  | pitchMarker (pitch_name color : String) (x y z : ℚ)
  | errorBar (color : String) (xMean xStdSq y z : ℚ)
  | overallMarker (x y z : ℚ)
  deriving Repr, DecidableEq

/-- Whether a trace is a per-pitch-type marker (line 54). -/
def Trace.isPitchMarker : Trace → Bool
  | .pitchMarker _ _ _ _ _ => true
  | _ => false

/-- Whether a trace is the overall-mean marker (line 74). -/
def Trace.isOverallMarker : Trace → Bool
  | .overallMarker _ _ _ => true
  | _ => false

/-- The pitch name labelling a per-pitch-type marker. -/
def Trace.markerName : Trace → Option String
  | .pitchMarker n _ _ _ _ => some n
  | _ => none

/-- The rendered figure: its title, the handedness label embedded in the
title, and the traces in the order they were added. -/
structure Plot where
  title : String
  handedness : String
  traces : List Trace
  deriving Repr, DecidableEq

/-- Lines 37-93: build the figure for one pitcher.  `.iloc[0]` on the filtered
`player_grouped` raises on an empty frame; that error branch is the `none`
result. -/
def plot_release_points (pitcher_name : String) (pg : List PitchGroupRow)
    (plg : List PlayerGroupRow) (cmap : List (String × String)) : Option Plot :=
  let pitcher_pitch_data := pg.filter fun r => r.player_name == pitcher_name
  match plg.find? fun r => r.player_name == pitcher_name with
  | none => none
  | some pitcher_overall_data =>
    let handedness :=
      if 0 < pitcher_overall_data.release_pos_x_mean_all then "Left-Handed" else "Right-Handed"
    let pitchTraces := pitcher_pitch_data.flatMap fun row =>
      [Trace.pitchMarker row.pitch_name (lookupColor cmap row.pitch_name)
         row.release_pos_x_mean row.release_pos_y_mean row.release_pos_z_mean,
       Trace.errorBar (lookupColor cmap row.pitch_name)
         row.release_pos_x_mean row.release_pos_x_stdSq
         row.release_pos_y_mean row.release_pos_z_mean]
    some { title := "Release Points for " ++ pitcher_name ++ " (" ++ handedness ++ ")"
           handedness := handedness
           traces := pitchTraces ++
             [Trace.overallMarker pitcher_overall_data.release_pos_x_mean_all
                pitcher_overall_data.release_pos_y_mean_all
                pitcher_overall_data.release_pos_z_mean_all] }

/-- Line 156: the options the selectbox offers, `player_grouped['player_name'].unique()`. -/
def dropdownOptions (plg : List PlayerGroupRow) : List String :=
  (plg.map fun r => r.player_name).dedup

/-- Lines 109-160: the whole deterministic pipeline from a fetched frame and a
selected pitcher to the aggregate tables, the dropdown options and the view. -/
def runPipeline (data : List RawRow) (selected : String) :
    List PitchGroupRow × List PlayerGroupRow × List String × Option Plot :=
  let pd := dropna data
  let pg := pitch_grouped pd
  let plg := player_grouped pd
  (pg, plg, dropdownOptions plg, plot_release_points selected pg plg color_map)

/-- Dates are days (as integers); `datetime.strptime` of the YYYY-MM-DD
strings on lines 17-18 yields such a day number.  Line 32: `current_start +=
chunk_size`, the only state update of the while loop. -/
def loopStep (chunk_size : ℤ) (current : ℤ) : ℤ :=
  current + chunk_size

/-- Lines 21-32, the while loop, driven by explicit fuel: while
`current ≤ end_date`, emit the interval from `current` to
`min (current + chunk_size - 1) end_date` and advance by `chunk_size`.
Exhausted fuel truncates the (for nonpositive chunk sizes infinite) run. -/
def fetchLoop (fuel : ℕ) (current end_date chunk_size : ℤ) : List (ℤ × ℤ) :=
  match fuel with
  | 0 => []
  | fuel + 1 =>
    if current ≤ end_date then
      (current, min (current + chunk_size - 1) end_date) ::
        fetchLoop fuel (loopStep chunk_size current) end_date chunk_size
    else []

/-- Fuel that suffices for the whole run whenever `chunk_size ≥ 1`: one unit
per day of the interval. -/
def fuelFor (start_date end_date : ℤ) : ℕ :=
  (end_date + 1 - start_date).toNat

/-- The fetch intervals the loop of lines 21-32 issues. -/
def chunkIntervals (start_date end_date chunk_size : ℤ) : List (ℤ × ℤ) :=
  fetchLoop (fuelFor start_date end_date) start_date end_date chunk_size

/-- Lines 25-31 for one interval: the fetch either raises (`Except.error`) or
returns a frame; the loop keeps it only when it is non-empty.  `none` means
the chunk contributes nothing to `all_data`. -/
def chunkResult (oracle : ℤ × ℤ → Except String (List RawRow)) (iv : ℤ × ℤ) :
    Option (List RawRow) :=
  match oracle iv with
  | .ok chunk => if chunk.isEmpty then none else some chunk
  | .error _ => none

/-- Lines 21-32 with the `all_data` accumulation: the list of frames appended
by the successful non-empty fetches, in loop order. -/
def fetchLoopData (oracle : ℤ × ℤ → Except String (List RawRow)) (fuel : ℕ)
    (current end_date chunk_size : ℤ) : List (List RawRow) :=
  match fuel with
  | 0 => []
  | fuel + 1 =>
    if current ≤ end_date then
      let iv : ℤ × ℤ := (current, min (current + chunk_size - 1) end_date)
      let rest := fetchLoopData oracle fuel (loopStep chunk_size current) end_date chunk_size
      match chunkResult oracle iv with
      | some chunk => chunk :: rest
      | none => rest
    else []

/-- Lines 8-35, `fetch_season_data`: run the chunked loop and concatenate
`all_data` (line 35); with no successful chunk the result is the empty
frame `[]`. -/
def fetch_season_data (oracle : ℤ × ℤ → Except String (List RawRow))
    (start_date end_date chunk_size : ℤ) : List RawRow :=
  (fetchLoopData oracle (fuelFor start_date end_date) start_date end_date chunk_size).flatten

/-- Modelled from the spec: the aggregation performed by the two repository
files that are not under src/ (the classic-plotting variant and the variant
with an unchunked fetch).  The spec calls the three files functionally
identical variants that "compute per-player and per-player/pitch-type mean
and standard deviation of three spatial coordinates", so each of them maps
every group of the cleaned data to the reference mean and standard deviation
of its three coordinates. -/
def variantAggregates (data : List RawRow) : List PitchGroupRow × List PlayerGroupRow :=
  let pd := dropna data
  ((pitchKeys pd).map (refPitchRow pd), (playerKeys pd).map (refPlayerRow pd))

/-- The pipeline mean agrees with the reference mean. -/
theorem mean_eq_refMean (l : List ℚ) : mean l = refMean l := by
  rw [mean, refMean, inv_mul_eq_div]

/-- The filled pipeline variance agrees with the filled reference variance. -/
theorem fillZero_sampleVar_eq_ref (l : List ℚ) :
    fillZero (sampleVar l) = fillZero (refSampleVar l) := by
  rw [sampleVar, refSampleVar]
  rcases Nat.lt_or_ge 1 l.length with h | h
  · rw [if_neg (by omega), if_pos (by omega)]
    simp only [fillZero, Option.getD_some]
    rw [inv_mul_eq_div, mean_eq_refMean]
  · rw [if_pos (by omega), if_neg (by omega)]

/-- The rows of `pitch_grouped` are exactly the reference rows of the keys. -/
theorem pitch_grouped_eq_map_ref (rows : List PitchRow) :
    pitch_grouped rows = (pitchKeys rows).map (refPitchRow rows) := by
  rw [pitch_grouped]
  refine List.map_congr_left fun k _ => ?_
  simp [refPitchRow, mean_eq_refMean, fillZero_sampleVar_eq_ref]

/-- The rows of `player_grouped` are exactly the reference rows of the keys. -/
theorem player_grouped_eq_map_ref (rows : List PitchRow) :
    player_grouped rows = (playerKeys rows).map (refPlayerRow rows) := by
  rw [player_grouped]
  refine List.map_congr_left fun p _ => ?_
  simp [refPlayerRow, mean_eq_refMean, fillZero_sampleVar_eq_ref]

/-- Filtering a duplicate-free list with a predicate that characterises one
of its members yields exactly that member. -/
theorem filter_eq_singleton_of_nodup {α : Type} (l : List α) (hnd : l.Nodup)
    (a : α) (ha : a ∈ l) (p : α → Bool) (hp : ∀ x, p x = true ↔ x = a) :
    l.filter p = [a] := by
  induction l with
  | nil => cases ha
  | cons b t ih =>
    rcases List.nodup_cons.mp hnd with ⟨hbt, hndt⟩
    rcases List.mem_cons.mp ha with rfl | hat
    · rw [List.filter_cons, if_pos ((hp a).mpr rfl)]
      have : t.filter p = [] := by
        refine List.filter_eq_nil_iff.mpr fun x hx => ?_
        intro hpx
        exact hbt ((hp x).mp hpx ▸ hx)
      rw [this]
    · have hbz : p b = false := by
        rcases Bool.eq_false_or_eq_true (p b) with h | h
        · exact absurd ((hp b).mp h ▸ hat) hbt
        · exact h
      rw [List.filter_cons, hbz]
      simp only [Bool.false_eq_true, if_false]
      exact ih hndt hat

/-- C1: for every fetched dataset, after `dropna`, `pitch_grouped` holds for
each (player_name, pitch_name) group exactly one row, carrying the reference
mean and (squared) sample standard deviation of the group's three release
coordinates, and `player_grouped` likewise for each player_name group. -/
theorem pitch_player_grouped_match_reference (data : List RawRow) :
    (∀ k ∈ pitchKeys (dropna data),
      (pitch_grouped (dropna data)).filter
        (fun g => g.player_name == k.1 && g.pitch_name == k.2)
        = [refPitchRow (dropna data) k]) ∧
    (∀ p ∈ playerKeys (dropna data),
      (player_grouped (dropna data)).filter (fun g => g.player_name == p)
        = [refPlayerRow (dropna data) p]) := by
  constructor
  · intro k hk
    rw [pitch_grouped_eq_map_ref, List.filter_map]
    have hstep : (pitchKeys (dropna data)).filter
        ((fun g => g.player_name == k.1 && g.pitch_name == k.2) ∘
          refPitchRow (dropna data)) = [k] := by
      apply filter_eq_singleton_of_nodup _ (List.nodup_dedup _) k hk
      intro x
      simp [refPitchRow, Function.comp, Prod.ext_iff]
    rw [hstep, List.map_singleton]
  · intro p hp
    rw [player_grouped_eq_map_ref, List.filter_map]
    have hstep : (playerKeys (dropna data)).filter
        ((fun g => g.player_name == p) ∘ refPlayerRow (dropna data)) = [p] := by
      apply filter_eq_singleton_of_nodup _ (List.nodup_dedup _) p hp
      intro x
      simp [refPlayerRow, Function.comp]
    rw [hstep, List.map_singleton]

/-- Witness for C1 on a concrete dataset. -/
theorem pitch_player_grouped_match_reference_witness :
    (pitch_grouped (dropna [⟨some "A", some "FF", some 1, some 2, some 3⟩,
        ⟨some "A", some "FF", some 3, some 4, some 5⟩])).filter
        (fun g => g.player_name == "A" && g.pitch_name == "FF")
      = [refPitchRow (dropna [⟨some "A", some "FF", some 1, some 2, some 3⟩,
          ⟨some "A", some "FF", some 3, some 4, some 5⟩]) ("A", "FF")] :=
  (pitch_player_grouped_match_reference
    [⟨some "A", some "FF", some 1, some 2, some 3⟩,
     ⟨some "A", some "FF", some 3, some 4, some 5⟩]).1 ("A", "FF") (by decide)

/-- C7: the other two repository variants (modelled from the spec) compute
from the same input data exactly the aggregates the src variant computes. -/
theorem variants_compute_same_aggregates (data : List RawRow) :
    variantAggregates data
      = (pitch_grouped (dropna data), player_grouped (dropna data)) := by
  rw [variantAggregates, pitch_grouped_eq_map_ref, player_grouped_eq_map_ref]

/-- C6: the pipeline from a fetched frame and a selected pitcher to the
aggregate tables and the rendered view is a deterministic function: equal
inputs give identical outputs. -/
theorem pipeline_deterministic (d₁ d₂ : List RawRow) (s₁ s₂ : String)
    (hd : d₁ = d₂) (hs : s₁ = s₂) : runPipeline d₁ s₁ = runPipeline d₂ s₂ := by
  rw [hd, hs]

/-- Witness for C6 on a concrete dataset and selection. -/
theorem pipeline_deterministic_witness :
    runPipeline [⟨some "A", some "FF", some 1, some 2, some 3⟩] "A"
      = runPipeline [⟨some "A", some "FF", some 1, some 2, some 3⟩] "A" :=
  pipeline_deterministic _ _ _ _ rfl rfl

/-- The filled (squared) sample standard deviation is never negative. -/
theorem fillZero_sampleVar_nonneg (l : List ℚ) : 0 ≤ fillZero (sampleVar l) := by
  rw [sampleVar]
  rcases Nat.lt_or_ge 1 l.length with h | h
  · rw [if_neg (by omega)]
    simp only [fillZero, Option.getD_some]
    apply div_nonneg
    · refine List.sum_nonneg fun x hx => ?_
      rcases List.mem_map.mp hx with ⟨y, _, rfl⟩
      exact sq_nonneg _
    · have h2 : (2 : ℚ) ≤ (l.length : ℚ) := by exact_mod_cast h
      linarith
  · rw [if_pos (by omega)]
    rfl

/-- A group with at most one observation gets filled std 0. -/
theorem fillZero_sampleVar_of_small (l : List ℚ) (h : l.length ≤ 1) :
    fillZero (sampleVar l) = 0 := by
  rw [sampleVar, if_pos h]
  rfl

/-- C9: in both grouped tables every (squared) standard-deviation column is
defined and nonnegative, and a (player_name, pitch_name) group with exactly
one observation — whose sample standard deviation is NaN before the fill —
gets standard deviation 0. -/
theorem stdSq_defined_nonneg (data : List RawRow) :
    (∀ g ∈ pitch_grouped (dropna data),
      (0 ≤ g.release_pos_x_stdSq ∧ 0 ≤ g.release_pos_y_stdSq ∧ 0 ≤ g.release_pos_z_stdSq) ∧
      (((dropna data).filter fun r =>
          r.player_name == g.player_name && r.pitch_name == g.pitch_name).length = 1 →
        g.release_pos_x_stdSq = 0 ∧ g.release_pos_y_stdSq = 0 ∧ g.release_pos_z_stdSq = 0)) ∧
    (∀ g ∈ player_grouped (dropna data),
      0 ≤ g.release_pos_x_stdSq_all ∧ 0 ≤ g.release_pos_y_stdSq_all ∧
        0 ≤ g.release_pos_z_stdSq_all) := by
  constructor
  · intro g hg
    rw [pitch_grouped] at hg
    rcases List.mem_map.mp hg with ⟨k, _, rfl⟩
    refine ⟨⟨fillZero_sampleVar_nonneg _, fillZero_sampleVar_nonneg _,
      fillZero_sampleVar_nonneg _⟩, fun hone => ?_⟩
    have hone₂ : ((dropna data).filter fun r =>
        r.player_name == k.1 && r.pitch_name == k.2).length = 1 := hone
    have hlen : ∀ coord : PitchRow → ℚ,
        (pitchGroupValues (dropna data) k.1 k.2 coord).length ≤ 1 := by
      intro coord
      rw [pitchGroupValues, List.length_map]
      omega
    exact ⟨fillZero_sampleVar_of_small _ (hlen _), fillZero_sampleVar_of_small _ (hlen _),
      fillZero_sampleVar_of_small _ (hlen _)⟩
  · intro g hg
    rw [player_grouped] at hg
    rcases List.mem_map.mp hg with ⟨p, _, rfl⟩
    exact ⟨fillZero_sampleVar_nonneg _, fillZero_sampleVar_nonneg _,
      fillZero_sampleVar_nonneg _⟩

/-- Witness for C9 on a concrete dataset whose single group has exactly one
observation. -/
theorem stdSq_defined_nonneg_witness :
    0 ≤ (refPitchRow (dropna [⟨some "A", some "FF", some 1, some 2, some 3⟩])
        ("A", "FF")).release_pos_x_stdSq ∧
      (refPitchRow (dropna [⟨some "A", some "FF", some 1, some 2, some 3⟩])
        ("A", "FF")).release_pos_x_stdSq = 0 := by
  have hmem : refPitchRow (dropna [⟨some "A", some "FF", some 1, some 2, some 3⟩]) ("A", "FF")
      ∈ pitch_grouped (dropna [⟨some "A", some "FF", some 1, some 2, some 3⟩]) := by
    rw [pitch_grouped_eq_map_ref]
    exact List.mem_map_of_mem _ (by decide)
  have h := (stdSq_defined_nonneg [⟨some "A", some "FF", some 1, some 2, some 3⟩]).1 _ hmem
  exact ⟨h.1.1, (h.2 (by decide)).1⟩

/-- C5: for every pitcher name occurring in the player_name column of
`player_grouped` — which covers every name the dropdown can offer — the
first-row lookup of line 43 is defined, so `plot_release_points` never takes
the error branch. -/
theorem overall_row_lookup_total (data : List RawRow) (p : String)
    (hp : p ∈ (player_grouped (dropna data)).map PlayerGroupRow.player_name) :
    ((player_grouped (dropna data)).find? fun r => r.player_name == p).isSome = true ∧
    (plot_release_points p (pitch_grouped (dropna data)) (player_grouped (dropna data))
        color_map).isSome = true := by
  rcases List.mem_map.mp hp with ⟨r, hr, rfl⟩
  have hfind : ((player_grouped (dropna data)).find?
      fun q => q.player_name == r.player_name).isSome = true := by
    rw [List.find?_isSome]
    exact ⟨r, hr, by simp⟩
  refine ⟨hfind, ?_⟩
  rw [plot_release_points]
  rcases hsome : (player_grouped (dropna data)).find? fun q => q.player_name == r.player_name
    with _ | q
  · rw [hsome] at hfind
    simp at hfind
  · simp only [hsome]
    rfl

/-- Witness for C5 on a concrete dataset. -/
theorem overall_row_lookup_total_witness :
    ((player_grouped (dropna [⟨some "A", some "FF", some 1, some 2, some 3⟩])).find?
        fun r => r.player_name == "A").isSome = true ∧
    (plot_release_points "A"
        (pitch_grouped (dropna [⟨some "A", some "FF", some 1, some 2, some 3⟩]))
        (player_grouped (dropna [⟨some "A", some "FF", some 1, some 2, some 3⟩]))
        color_map).isSome = true :=
  overall_row_lookup_total [⟨some "A", some "FF", some 1, some 2, some 3⟩] "A"
    (by
      rw [player_grouped_eq_map_ref]
      rw [List.map_map]
      exact List.mem_map.mpr ⟨"A", by decide, rfl⟩)

/-- C10: for every pitcher with a row in `player_grouped`, the handedness
label of the rendered view is Left-Handed exactly when that row's overall
release_pos_x mean is positive, and Right-Handed otherwise. -/
theorem handedness_from_mean_sign (data : List RawRow) (p : String)
    (r : PlayerGroupRow) (plot : Plot)
    (hr : (player_grouped (dropna data)).find? (fun q => q.player_name == p) = some r)
    (hplot : plot_release_points p (pitch_grouped (dropna data))
        (player_grouped (dropna data)) color_map = some plot) :
    (plot.handedness = "Left-Handed" ↔ 0 < r.release_pos_x_mean_all) ∧
    (plot.handedness = "Right-Handed" ↔ ¬ 0 < r.release_pos_x_mean_all) := by
  rw [plot_release_points, hr] at hplot
  dsimp only at hplot
  by_cases hx : 0 < r.release_pos_x_mean_all
  · rw [if_pos hx] at hplot
    injection hplot with h
    subst h
    dsimp only
    refine ⟨⟨fun _ => hx, fun _ => rfl⟩, ?_, ?_⟩
    · intro h
      exact absurd h (by decide)
    · intro h
      exact (h hx).elim
  · rw [if_neg hx] at hplot
    injection hplot with h
    subst h
    dsimp only
    refine ⟨⟨?_, fun h => (hx h).elim⟩, fun _ => hx, fun _ => rfl⟩
    intro h
    exact absurd h (by decide)

/-- Witness for C10 on a concrete dataset. -/
theorem handedness_from_mean_sign_witness :
    ((plot_release_points "A"
        (pitch_grouped (dropna [⟨some "A", some "FF", some 1, some 2, some 3⟩]))
        (player_grouped (dropna [⟨some "A", some "FF", some 1, some 2, some 3⟩]))
        color_map).getD (Plot.mk "" "" [])).handedness = "Left-Handed" ↔
      0 < (((player_grouped (dropna [⟨some "A", some "FF", some 1, some 2, some 3⟩])).find?
          fun q => q.player_name == "A").getD
          (PlayerGroupRow.mk "" 0 0 0 0 0 0)).release_pos_x_mean_all :=
  (handedness_from_mean_sign [⟨some "A", some "FF", some 1, some 2, some 3⟩] "A"
    _ _ rfl rfl).1

/-- Of the traces added by the per-pitch loop of lines 49-71, the markers are
labelled with exactly the pitch names of the rows, in order. -/
theorem filterMap_markerName_pitchTraces (cmap : List (String × String))
    (l : List PitchGroupRow) :
    ((l.flatMap fun row =>
      [Trace.pitchMarker row.pitch_name (lookupColor cmap row.pitch_name)
         row.release_pos_x_mean row.release_pos_y_mean row.release_pos_z_mean,
       Trace.errorBar (lookupColor cmap row.pitch_name)
         row.release_pos_x_mean row.release_pos_x_stdSq
         row.release_pos_y_mean row.release_pos_z_mean]).filterMap Trace.markerName)
      = l.map PitchGroupRow.pitch_name := by
  induction l with
  | nil => rfl
  | cons a t ih => simp [Trace.markerName, ih]

/-- The per-pitch loop of lines 49-71 adds no overall-mean marker. -/
theorem filter_isOverallMarker_pitchTraces (cmap : List (String × String))
    (l : List PitchGroupRow) :
    ((l.flatMap fun row =>
      [Trace.pitchMarker row.pitch_name (lookupColor cmap row.pitch_name)
         row.release_pos_x_mean row.release_pos_y_mean row.release_pos_z_mean,
       Trace.errorBar (lookupColor cmap row.pitch_name)
         row.release_pos_x_mean row.release_pos_x_stdSq
         row.release_pos_y_mean row.release_pos_z_mean]).filter Trace.isOverallMarker)
      = [] := by
  induction l with
  | nil => rfl
  | cons a t ih => simp [Trace.isOverallMarker, ih]

/-- C4: the dropdown offers exactly the distinct player names of the
aggregated data, and for each offered pitcher the rendered view holds one
marker per (pitcher, pitch_name) group of `pitch_grouped` — labelled with the
group's pitch names — plus exactly one overall-mean marker taken from that
pitcher's `player_grouped` row. -/
theorem dropdown_and_view_content (data : List RawRow) :
    (∀ name, name ∈ dropdownOptions (player_grouped (dropna data)) ↔
      ∃ r ∈ dropna data, r.player_name = name) ∧
    (∀ p ∈ dropdownOptions (player_grouped (dropna data)),
      ∃ plot r,
        (player_grouped (dropna data)).find? (fun q => q.player_name == p) = some r ∧
        plot_release_points p (pitch_grouped (dropna data)) (player_grouped (dropna data))
            color_map = some plot ∧
        plot.traces.filterMap Trace.markerName
          = (((pitchKeys (dropna data)).filter fun k => k.1 == p).map fun k => k.2) ∧
        plot.traces.filter Trace.isOverallMarker
          = [Trace.overallMarker r.release_pos_x_mean_all r.release_pos_y_mean_all
              r.release_pos_z_mean_all]) := by
  have hopts : ∀ name, name ∈ dropdownOptions (player_grouped (dropna data)) ↔
      ∃ r ∈ dropna data, r.player_name = name := by
    intro name
    rw [dropdownOptions, player_grouped_eq_map_ref, List.map_map]
    have hcomp : (PlayerGroupRow.player_name ∘ refPlayerRow (dropna data)) = id := rfl
    rw [hcomp, List.map_id, List.mem_dedup, playerKeys, List.mem_dedup, List.mem_map]
  refine ⟨hopts, fun p hp => ?_⟩
  have hp' : p ∈ (player_grouped (dropna data)).map PlayerGroupRow.player_name :=
    List.mem_dedup.mp hp
  rcases List.mem_map.mp hp' with ⟨q, hq, rfl⟩
  have hfs : ((player_grouped (dropna data)).find?
      fun w => w.player_name == q.player_name).isSome = true := by
    rw [List.find?_isSome]
    exact ⟨q, hq, by simp⟩
  rcases Option.isSome_iff_exists.mp hfs with ⟨r, hrfind⟩
  cases hplot : plot_release_points q.player_name (pitch_grouped (dropna data))
      (player_grouped (dropna data)) color_map with
  | none =>
    rw [plot_release_points, hrfind] at hplot
    dsimp only at hplot
    exact Option.noConfusion hplot
  | some plot =>
    have hplot2 := hplot
    rw [plot_release_points, hrfind] at hplot2
    dsimp only at hplot2
    injection hplot2 with h
    refine ⟨plot, r, hrfind, rfl, ?_, ?_⟩
    · rw [← h]
      dsimp only
      rw [List.filterMap_append, filterMap_markerName_pitchTraces]
      have htail : ([Trace.overallMarker r.release_pos_x_mean_all r.release_pos_y_mean_all
          r.release_pos_z_mean_all].filterMap Trace.markerName) = [] := rfl
      rw [htail, List.append_nil, pitch_grouped_eq_map_ref, List.filter_map, List.map_map]
      rfl
    · rw [← h]
      dsimp only
      rw [List.filter_append, filter_isOverallMarker_pitchTraces, List.nil_append]
      rfl

/-- Witness for C4 on a concrete dataset. -/
theorem dropdown_and_view_content_witness :
    ∃ plot r,
      (player_grouped (dropna [⟨some "A", some "FF", some 1, some 2, some 3⟩])).find?
          (fun q => q.player_name == "A") = some r ∧
      plot_release_points "A"
          (pitch_grouped (dropna [⟨some "A", some "FF", some 1, some 2, some 3⟩]))
          (player_grouped (dropna [⟨some "A", some "FF", some 1, some 2, some 3⟩]))
          color_map = some plot ∧
      plot.traces.filterMap Trace.markerName
        = (((pitchKeys (dropna [⟨some "A", some "FF", some 1, some 2, some 3⟩])).filter
            fun k => k.1 == "A").map fun k => k.2) ∧
      plot.traces.filter Trace.isOverallMarker
        = [Trace.overallMarker r.release_pos_x_mean_all r.release_pos_y_mean_all
            r.release_pos_z_mean_all] :=
  (dropdown_and_view_content [⟨some "A", some "FF", some 1, some 2, some 3⟩]).2 "A" (by decide)

/-- Once the guard fails the loop emits nothing, whatever fuel remains. -/
theorem fetchLoop_of_gt (fuel : ℕ) (current end_date c : ℤ) (h : ¬ current ≤ end_date) :
    fetchLoop fuel current end_date c = [] := by
  cases fuel with
  | zero => rfl
  | succ f => rw [fetchLoop, if_neg h]

/-- Structure of the chunk list emitted by the while loop, for positive chunk
size and sufficient fuel: it starts at `current`, ends at `end_date`, is
chained with each chunk starting one day after the previous one ends, and
every chunk is nonempty and spans at most `c` days. -/
theorem fetchLoop_chunks (c : ℤ) (hc : 1 ≤ c) :
    ∀ (fuel : ℕ) (current end_date : ℤ), current ≤ end_date →
      (end_date + 1 - current).toNat ≤ fuel →
      ((fetchLoop fuel current end_date c).map Prod.fst).head? = some current ∧
      ((fetchLoop fuel current end_date c).map Prod.snd).getLast? = some end_date ∧
      List.Chain' (fun a b => b.1 = a.2 + 1) (fetchLoop fuel current end_date c) ∧
      ∀ iv ∈ fetchLoop fuel current end_date c, iv.1 ≤ iv.2 ∧ iv.2 - iv.1 + 1 ≤ c := by
  intro fuel
  induction fuel with
  | zero =>
    intro current end_date h1 h2
    exfalso
    omega
  | succ f ih =>
    intro current end_date h1 h2
    rw [fetchLoop, if_pos h1]
    by_cases h3 : current + c ≤ end_date
    · obtain ⟨ha, hb, hcn, hd⟩ := ih (current + c) end_date h3 (by omega)
      have hmin : min (current + c - 1) end_date = current + c - 1 := min_eq_left (by omega)
      have hstep : loopStep c current = current + c := rfl
      rw [hmin, hstep]
      rcases hL : fetchLoop f (current + c) end_date c with _ | ⟨x, t⟩
      · rw [hL] at ha
        exact absurd ha (by simp)
      · rw [hL] at ha hb hcn hd
        have hx1 : x.1 = current + c := by
          simpa using ha
        refine ⟨by simp, ?_, ?_, ?_⟩
        · rw [List.map_cons, List.map_cons, List.getLast?_cons_cons]
          simpa using hb
        · exact List.chain'_cons.mpr ⟨by omega, hcn⟩
        · intro iv hiv
          rcases List.mem_cons.mp hiv with rfl | hiv₂
          · constructor <;> omega
          · exact hd iv hiv₂
    · have hnil : fetchLoop f (loopStep c current) end_date c = [] :=
        fetchLoop_of_gt f _ end_date c (by rw [loopStep]; omega)
      have hmin : min (current + c - 1) end_date = end_date := min_eq_right (by omega)
      rw [hmin, hnil]
      refine ⟨by simp, by simp, List.chain'_singleton _, ?_⟩
      intro iv hiv
      rcases List.mem_singleton.mp hiv
      constructor <;> omega

/-- C2: for `start_date ≤ end_date` and `chunk_size ≥ 1` the fetch intervals
are consecutive and non-overlapping and cover exactly `[start_date,
end_date]`: the first starts at `start_date`, each next one starts one day
after the previous one ends, each spans at least one and at most
`chunk_size` days, and the last ends exactly at `end_date`. -/
theorem chunks_cover_range (start_date end_date chunk_size : ℤ)
    (h : start_date ≤ end_date) (hc : 1 ≤ chunk_size) :
    ((chunkIntervals start_date end_date chunk_size).map Prod.fst).head? = some start_date ∧
    ((chunkIntervals start_date end_date chunk_size).map Prod.snd).getLast? = some end_date ∧
    List.Chain' (fun a b => b.1 = a.2 + 1) (chunkIntervals start_date end_date chunk_size) ∧
    ∀ iv ∈ chunkIntervals start_date end_date chunk_size,
      iv.1 ≤ iv.2 ∧ iv.2 - iv.1 + 1 ≤ chunk_size :=
  fetchLoop_chunks chunk_size hc (fuelFor start_date end_date) start_date end_date h
    (Nat.le_refl _)

/-- Witness for C2 on the concrete range 0..9 with 7-day chunks. -/
theorem chunks_cover_range_witness :
    ((chunkIntervals 0 9 7).map Prod.fst).head? = some 0 ∧
    ((chunkIntervals 0 9 7).map Prod.snd).getLast? = some 9 ∧
    List.Chain' (fun a b => b.1 = a.2 + 1) (chunkIntervals 0 9 7) ∧
    ∀ iv ∈ chunkIntervals 0 9 7, iv.1 ≤ iv.2 ∧ iv.2 - iv.1 + 1 ≤ 7 :=
  chunks_cover_range 0 9 7 (by decide) (by decide)

/-- The loop variable after n iterations of line 32. -/
theorem loopStep_iterate (c s : ℤ) (n : ℕ) : (loopStep c)^[n] s = s + n * c := by
  induction n with
  | zero => simp
  | succ m ih =>
    rw [Function.iterate_succ_apply', ih, loopStep]
    push_cast
    ring

/-- C8: with a positive chunk size the loop guard `current ≤ end_date`
eventually fails, since the loop variable strictly increases each iteration;
with a nonpositive chunk size and `start_date ≤ end_date` the guard holds
after every iteration, so the loop never terminates. -/
theorem fetch_loop_termination (start_date end_date chunk_size : ℤ) :
    (1 ≤ chunk_size →
      ∃ n : ℕ, end_date < (loopStep chunk_size)^[n] start_date) ∧
    (chunk_size ≤ 0 → start_date ≤ end_date →
      ∀ n : ℕ, (loopStep chunk_size)^[n] start_date ≤ end_date) := by
  constructor
  · intro hc
    refine ⟨(end_date + 1 - start_date).toNat, ?_⟩
    rw [loopStep_iterate]
    have hn : ((end_date + 1 - start_date).toNat : ℤ)
        ≤ ((end_date + 1 - start_date).toNat : ℤ) * chunk_size :=
      le_mul_of_one_le_right (Int.natCast_nonneg _) hc
    omega
  · intro hc h n
    rw [loopStep_iterate]
    have hn : (n : ℤ) * chunk_size ≤ (n : ℤ) * 0 :=
      mul_le_mul_of_nonneg_left hc (Int.natCast_nonneg n)
    rw [mul_zero] at hn
    omega

/-- Witness for C8: a positive and a nonpositive chunk size on 0..9. -/
theorem fetch_loop_termination_witness :
    (∃ n : ℕ, (9 : ℤ) < (loopStep 7)^[n] 0) ∧ (∀ n : ℕ, (loopStep (-1))^[n] 0 ≤ 9) :=
  ⟨(fetch_loop_termination 0 9 7).1 (by decide),
   (fetch_loop_termination 0 9 (-1)).2 (by decide) (by decide)⟩

/-- The accumulated successful chunks are the per-interval results of the
emitted intervals, in order. -/
theorem fetchLoopData_eq_filterMap (oracle : ℤ × ℤ → Except String (List RawRow)) :
    ∀ (fuel : ℕ) (current end_date c : ℤ),
      fetchLoopData oracle fuel current end_date c
        = (fetchLoop fuel current end_date c).filterMap (chunkResult oracle) := by
  intro fuel
  induction fuel with
  | zero => intro current end_date c; rfl
  | succ f ih =>
    intro current end_date c
    rw [fetchLoopData, fetchLoop]
    by_cases h : current ≤ end_date
    · rw [if_pos h, if_pos h, List.filterMap_cons]
      cases hcr : chunkResult oracle (current, min (current + c - 1) end_date) with
      | none => simp only [hcr, ih]
      | some chunk => simp only [hcr, ih]
    · rw [if_neg h, if_neg h]
      rfl

/-- C3: the frame `fetch_season_data` returns is the concatenation of exactly
the successful non-empty chunk fetches, in chronological (loop) order; when
every chunk raises or is empty, the returned frame is empty. -/
theorem fetch_concat_successful_chunks (oracle : ℤ × ℤ → Except String (List RawRow))
    (start_date end_date chunk_size : ℤ) :
    fetch_season_data oracle start_date end_date chunk_size
      = ((chunkIntervals start_date end_date chunk_size).filterMap
          (chunkResult oracle)).flatten ∧
    ((∀ iv ∈ chunkIntervals start_date end_date chunk_size, chunkResult oracle iv = none) →
      fetch_season_data oracle start_date end_date chunk_size = []) := by
  have h1 : fetch_season_data oracle start_date end_date chunk_size
      = ((chunkIntervals start_date end_date chunk_size).filterMap
          (chunkResult oracle)).flatten := by
    rw [fetch_season_data, chunkIntervals, fetchLoopData_eq_filterMap]
  refine ⟨h1, fun hall => ?_⟩
  rw [h1, List.filterMap_eq_nil_iff.mpr hall]
  rfl

/-- Witness for C3 with an oracle whose every fetch raises. -/
theorem fetch_concat_successful_chunks_witness :
    fetch_season_data (fun _ => Except.error "boom") 0 9 7
      = ((chunkIntervals 0 9 7).filterMap
          (chunkResult fun _ => Except.error "boom")).flatten ∧
    fetch_season_data (fun _ => Except.error "boom") 0 9 7 = [] :=
  ⟨(fetch_concat_successful_chunks (fun _ => Except.error "boom") 0 9 7).1,
   (fetch_concat_successful_chunks (fun _ => Except.error "boom") 0 9 7).2
     fun _ _ => rfl⟩
